import Mathlib

/-!
# `fn run`: invocation envelope and container dispatch (`run.go`)

A shallow embedding of `getEnvValue`, `preRun`, `runCmd.run`, `runff` and `kvEq`
from `run.go`, followed by the properties of the envelope that the specification
states.

Conventions of the embedding.

* Go `string` and `[]byte` values are Lean `String`s.  The code only concatenates
  them, compares them and splits them on `=`.
* Go `error` values are their messages.  A run-time panic (an index out of range)
  is kept apart from a returned error: see `Failure`.
* Everything `run.go` calls but does not define (the clock, `os.Getenv`,
  `net/http`, `createJSONInput`, `buildfunc`, ...) is a field of `World`; the
  embedding fixes nothing about what these return.
* `runff` ends in `cmd.Run()`.  The embedding stops there: `runff` yields the
  `Launch` it hands to the container runtime (command line and standard input).
* `for i := 0; i < runs; i++` executes its body `runs.toNat` times; the loops are
  structural recursions on that count.
-/

namespace FnRun

/-! ## Constants (`run.go` lines 18-23) -/

def DefaultFormat : String := "default"
def HttpFormat : String := "http"
def JSONFormat : String := "json"
def LocalTestURL : String := "http://localhost:8080/myapp/hello"

/-! ## Data model -/

/-- Either a returned Go `error` (by message) or a run-time panic. -/
inductive Failure where
  | error (msg : String)
  | panic (msg : String)
  deriving DecidableEq, Repr

/-- Modelled from the spec: one expected configuration entry of the function
declaration (`ff.Expects.Config[i]`); its type is declared outside `run.go`.
`run.go` reads `Name` and `Required`. -/
structure Expect where
  Name : String
  Required : Bool
  deriving DecidableEq, Repr

/-- Modelled from the spec: the function declaration `funcfile`, whose type is
declared outside `run.go`.  The fields are the ones `run.go` reads or writes:
`Name`, `Memory` (uint64, MB), `Timeout` (`*int32`, `none` for nil), `Format`,
`Type` (here `Type_`) and `Expects.Config`. -/
structure funcfile where
  Name : String
  Memory : Nat
  Timeout : Option Int
  Format : String
  Type_ : String
  Expects : List Expect
  deriving DecidableEq, Repr

/-- What the command line gives `preRun` and `runCmd.run` (the `cli.Context`):
the first positional argument and the flags of `runflags`. -/
structure Context where
  firstArg : String
  env : List String
  link : List String
  method : String
  format : String
  runs : Int
  memory : Nat
  noCache : Bool
  deriving DecidableEq, Repr

/-- Observable steps of a command, in the order they happen. -/
inductive Event where
  | stdout (msg : String)
  | stderr (msg : String)
  | chdir (dir : String)
  | build (fpath : String)
  | launch (sh : List String)
  deriving DecidableEq, Repr

/-- The collaborators of `run.go`.  `R` is the type of input streams
(`io.Reader`), `Req` the type of `*http.Request`. -/
structure World (R Req : Type) where
  /-- The call `os.Getenv`. -/
  getenv : String → String
  /-- The call `time.Now().Add(time.Duration(to) * time.Second).Format(time.RFC3339)`,
  as a function of `to`. -/
  deadlineAfter : Int → String
  /-- The call `ioutil.ReadAll`. -/
  readAll : R → Except String String
  /-- The call `http.NewRequest(method, url, strings.NewReader(body))`. -/
  newRequest : String → String → String → Except String Req
  /-- The call `req.Header.Set(key, value)`. -/
  headerSet : Req → String → String → Req
  /-- The call `req.Write(&b)`: the bytes appended to `b` and the error returned. -/
  write : Req → String × Option String
  /-- The call `createJSONInput(callID, contentType, deadline, method, url, stdin)`:
  the record, and the stream as the call leaves it. -/
  createJSONInput :
    String → String → String → String → String → Option R → Except String (String × Option R)
  /-- The method `ff.ImageName()`. -/
  imageName : funcfile → String
  /-- The function `stdin()`: the input stream of the process, `none` for nil. -/
  stdin : Option R
  /-- The function `getWd()`. -/
  getWd : String
  /-- The call `filepath.Join(wd, path)`. -/
  joinPath : String → String → String
  /-- The call `os.Chdir(dir)`: `none` for a nil error. -/
  chdir : String → Option String
  /-- The call `findAndParseFuncfile(wd)`. -/
  findAndParseFuncfile : String → Except String (String × funcfile)
  /-- The call `filepath.Base(filepath.Dir(fpath))`. -/
  baseOfDir : String → String
  /-- The call `buildfunc(c, fpath, ff, noCache)`: an error, or the declaration as the
  call leaves it (`ff` is passed by pointer; the returned pointer is discarded). -/
  buildfunc : String → funcfile → Bool → Except String funcfile

/-- Standard input of the launched container: the caller's stream handed through,
or a reader over bytes that `runff` encoded. -/
inductive Stdin (R : Type) where
  | passthrough (r : Option R)
  | bytes (s : String)

/-- What `runff` hands to `exec.Command(sh[0], sh[1:]...)` and `cmd.Stdin`, with the
container environment list `runEnv` it was built from, and whether `cmd.Stdout`
was wrapped by `stdoutJSON`. -/
structure Launch (R : Type) where
  sh : List String
  runEnv : List String
  stdin : Stdin R
  stdoutJSON : Bool

/-! ## Strings -/

/-- Split a character list at every occurrence of `c`; the result is never empty. -/
def splitOnChar (c : Char) : List Char → List (List Char)
  | [] => [[]]
  | x :: xs =>
    match splitOnChar c xs with
    | [] => [[]]
    | h :: t => if x = c then [] :: h :: t else (x :: h) :: t

/-- The call `strings.Split(s, sep)` for a one-character separator. -/
def strings_Split (s : String) (sep : Char) : List String :=
  (splitOnChar sep s.data).map String.mk

/-- Source `kvEq`: `fmt.Sprintf("%s=%s", k, v)`. -/
def kvEq (k v : String) : String := k ++ "=" ++ v

/-! ## `getEnvValue` (lines 127-136) -/

/-- Source `getEnvValue`.  `split[0]` and `split[1]` are bounds-checked indexings: out
of range is a panic. -/
def getEnvValue (n : String) : List String → Except Failure String
  | [] => .ok ""
  | e :: envVars =>
    let split := strings_Split e '='
    match split[0]? with
    | none => .error (.panic "index out of range [0]")
    | some s0 =>
      if s0 = n then
        match split[1]? with
        | none => .error (.panic "index out of range [1]")
        | some s1 => .ok s1
      else getEnvValue n envVars

/-! ## `preRun` (lines 72-125) -/

/-- The loop of `preRun` over `ff.Expects.Config` (lines 99-114), with the current
`envVars`: the lines written to stderr, and the final `envVars` or the failure. -/
def checkExpected (getenv : String → String) :
    List Expect → List String → List Event × Except Failure (List String)
  | [], envVars => ([], .ok envVars)
  | expected :: rest, envVars =>
    let n := expected.Name
    match getEnvValue n envVars with
    | .error f => ([], .error f)
    | .ok e =>
      if e ≠ "" then checkExpected getenv rest envVars
      else
        let e := getenv n
        if e ≠ "" then checkExpected getenv rest (envVars ++ [kvEq n e])
        else if expected.Required then
          ([], .error (.error ("required env var " ++ n ++
            " not found, please set either set it in your environment or pass in `-e " ++
            n ++ "=X` flag.")))
        else
          let (ev, res) := checkExpected getenv rest envVars
          (Event.stderr ("info: optional env var " ++ n ++ " not found.\n") :: ev, res)

/-- Lines 91-124 of `preRun`, in working directory `wd`. -/
def preRunIn {R Req : Type} (w : World R Req) (c : Context) (wd : String) :
    List Event × Except Failure (String × funcfile × List String) :=
  match w.findAndParseFuncfile wd with
  | .error err => ([], .error (.error err))
  | .ok (fpath, ff) =>
    match checkExpected w.getenv ff.Expects c.env with
    | (ev, .error f) => (ev, .error f)
    | (ev, .ok envVars) =>
      let ff := if ff.Name = "" then { ff with Name := w.baseOfDir fpath } else ff
      match w.buildfunc fpath ff c.noCache with
      | .error err => (ev ++ [Event.build fpath], .error (.error err))
      | .ok ff => (ev ++ [Event.build fpath], .ok (fpath, ff, envVars))

/-- Source `preRun`.  On success it returns `fpath`, `ff` and `envVars`; the deferred
`os.Chdir(wd)` runs on every way out once the first `os.Chdir` succeeded. -/
def preRun {R Req : Type} (w : World R Req) (c : Context) :
    List Event × Except Failure (String × funcfile × List String) :=
  let wd := w.getWd
  let path := c.firstArg
  if path ≠ "" then
    let dir := w.joinPath wd path
    match w.chdir dir with
    | some err =>
      ([Event.stdout ("Running function at: /" ++ path ++ "\n"), Event.chdir dir],
        .error (.error err))
    | none =>
      let (ev, res) := preRunIn w c dir
      ([Event.stdout ("Running function at: /" ++ path ++ "\n"), Event.chdir dir] ++ ev ++
        [Event.chdir wd], res)
  else preRunIn w c wd

/-! ## `runff` (lines 152-278) -/

/-- Lines 167-173: the method after defaulting. -/
def effectiveMethod {R : Type} (method : String) (stdin : Option R) : String :=
  if method = "" then
    if stdin.isNone then "GET" else "POST"
  else method

/-- Lines 174-180: the format after defaulting. -/
def resolveFormat (format : String) (ff : funcfile) : String :=
  if format = "" then
    if ff.Format ≠ "" then ff.Format else DefaultFormat
  else format

/-- Lines 193-195. -/
def normalizeRuns (runs : Int) : Int := if runs ≤ 0 then 1 else runs

/-- Lines 160-165: the formatted deadline. -/
def deadlineString {R Req : Type} (w : World R Req) (ff : funcfile) : String :=
  let timeout : Int := match ff.Timeout with
    | some t => t
    | none => 30
  w.deadlineAfter timeout

/-- Lines 206-212: the input of the HTTP branch. -/
def readInput {R Req : Type} (w : World R Req) (stdin : Option R) : Except Failure String :=
  match stdin with
  | none => .ok ""
  | some rd =>
    match w.readAll rd with
    | .error err => .error (.error ("error reading from stdin: " ++ err))
    | .ok input => .ok input

/-- Lines 215-229: the loop of the HTTP branch, `k` iterations to go, buffer `b`.  The
error of `req.Write` is assigned to the `err` declared inside the loop body and is
not looked at again. -/
def httpLoop {R Req : Type} (w : World R Req)
    (method input callID contentType deadlineS : String) : Nat → String → Except Failure String
  | 0, b => .ok b
  | k + 1, b =>
    match w.newRequest method LocalTestURL input with
    | .error err => .error (.error ("error creating http request: " ++ err))
    | .ok req =>
      let req := w.headerSet req "Content-Type" contentType
      let req := w.headerSet req "FN_REQUEST_URL" LocalTestURL
      let req := w.headerSet req "FN_CALL_ID" callID
      let req := w.headerSet req "FN_METHOD" method
      let req := w.headerSet req "FN_DEADLINE" deadlineS
      httpLoop w method input callID contentType deadlineS k (b ++ (w.write req).1)

/-- Lines 240-247: the loop of the JSON branch, `k` iterations to go, builder `b`,
stream `stdin`. -/
def jsonLoop {R Req : Type} (w : World R Req)
    (method callID contentType deadlineS : String) :
    Nat → String → Option R → Except Failure String
  | 0, b, _ => .ok b
  | k + 1, b, stdin =>
    match w.createJSONInput callID contentType deadlineS method LocalTestURL stdin with
    | .error err => .error (.error err)
    | .ok (body, stdin) =>
      jsonLoop w method callID contentType deadlineS k (b ++ body ++ "\n") stdin

/-- Lines 153 and 258-271: the command line, from the final `runEnv`. -/
def dockerArgs {R Req : Type} (w : World R Req) (ff : funcfile)
    (links runEnv : List String) : List String :=
  let sh := ["docker", "run", "--rm", "-i", "--memory=" ++ toString ff.Memory ++ "m"]
  let sh := links.foldl (fun sh l => sh ++ ["--link", l]) sh
  let sh := runEnv.foldl (fun sh e => sh ++ ["-e", e]) sh
  sh ++ [w.imageName ff]

/-- Source `runff`, up to `cmd.Run()`.  The list `env` of lines 262-265 is not used
by the code (`cmd.Env = env` is commented out) and is left out, and so is the `async`
branch of lines 197-201, whose body holds only comments. -/
def runff {R Req : Type} (w : World R Req) (ff : funcfile) (stdin : Option R)
    (method : String) (envVars links : List String) (format : String) (runs : Int) :
    Except Failure (Launch R) :=
  let callID := "12345678901234567890123456"
  let contentType := "application/json"
  let deadlineS := deadlineString w ff
  let method := effectiveMethod method stdin
  let format := resolveFormat format ff
  let runEnv : List String := []
  let runEnv := runEnv ++ [kvEq "FN_TYPE" "sync"]
  let runEnv := runEnv ++ [kvEq "FN_FORMAT" format]
  let runEnv := runEnv ++ [kvEq "FN_PATH" "/hello"]
  let runEnv := runEnv ++ [kvEq "FN_MEMORY" (toString ff.Memory)]
  let runEnv := runEnv ++ [kvEq "FN_APP_NAME" "myapp"]
  let runEnv := runEnv ++ envVars
  let runs := normalizeRuns runs
  if format = HttpFormat then
    match readInput w stdin with
    | .error f => .error f
    | .ok input =>
      match httpLoop w method input callID contentType deadlineS runs.toNat "" with
      | .error f => .error f
      | .ok body =>
        .ok { sh := dockerArgs w ff links runEnv, runEnv := runEnv,
              stdin := .bytes body, stdoutJSON := false }
  else if format = JSONFormat then
    match jsonLoop w method callID contentType deadlineS runs.toNat "" stdin with
    | .error f => .error f
    | .ok b =>
      .ok { sh := dockerArgs w ff links runEnv, runEnv := runEnv,
            stdin := .bytes b, stdoutJSON := true }
  else
    let runEnv := runEnv ++ [kvEq "FN_REQUEST_URL" LocalTestURL]
    let runEnv := runEnv ++ [kvEq "FN_CALL_ID" callID]
    let runEnv := runEnv ++ [kvEq "FN_METHOD" method]
    let runEnv := runEnv ++ [kvEq "FN_DEADLINE" deadlineS]
    .ok { sh := dockerArgs w ff links runEnv, runEnv := runEnv,
          stdin := .passthrough stdin, stdoutJSON := false }

/-! ## `runCmd.run` (lines 138-149) -/

/-- Lines 145-147: a non-zero `--memory` flag replaces the declared memory. -/
def applyMemory (ff : funcfile) (memory : Nat) : funcfile :=
  if memory ≠ 0 then { ff with Memory := memory } else ff

/-- Source `runCmd.run`, up to `cmd.Run()`: the events, and the launch reached or the
failure. -/
def runCmd.run {R Req : Type} (w : World R Req) (c : Context) :
    List Event × Except Failure (Launch R) :=
  match preRun w c with
  | (ev, .error f) => (ev, .error f)
  | (ev, .ok (_, ff, envVars)) =>
    let ff := applyMemory ff c.memory
    match runff w ff w.stdin c.method envVars c.link c.format c.runs with
    | .error f => (ev, .error f)
    | .ok l => (ev ++ [Event.launch l.sh], .ok l)

/-! ## Successful runs of `createJSONInput` -/

/-- The calls of `createJSONInput` made one after the other from stream `stdin`, each
with the same `callID`, `contentType`, `deadlineS`, `method` and URL, succeed and
return `records` in this order. -/
def jsonCalls {R Req : Type} (w : World R Req) (method callID contentType deadlineS : String) :
    Option R → List String → Prop
  | _, [] => True
  | stdin, record :: records =>
    ∃ stdin' : Option R,
      w.createJSONInput callID contentType deadlineS method LocalTestURL stdin =
        .ok (record, stdin') ∧
      jsonCalls w method callID contentType deadlineS stdin' records

/-! ## Sample collaborators

Concrete collaborators on which the definitions can be evaluated.  A stream is its
unread content; a request is the list of lines it will be written as. -/

/-- A world with an empty process environment, a stream-draining `createJSONInput`
and a line-per-field request writer. -/
def sampleWorld : World String (List String) where
  getenv := fun _ => ""
  deadlineAfter := fun _ => "2018-01-01T00:00:30Z"
  readAll := fun rd => .ok rd
  newRequest := fun method url body =>
    if method = "" then .error "net/http: invalid method" else .ok [method ++ " " ++ url, body]
  headerSet := fun req key value => req ++ [key ++ ": " ++ value]
  write := fun req => (String.join (req.map (fun l => l ++ "\r\n")), none)
  createJSONInput := fun callID _ deadline _ _ stdin =>
    .ok (callID ++ "|" ++ deadline ++ "|" ++ stdin.getD "", stdin.map (fun _ => ""))
  imageName := fun ff => ff.Name ++ ":0.0.1"
  stdin := none
  getWd := "/work"
  joinPath := fun wd path => wd ++ "/" ++ path
  chdir := fun _ => none
  findAndParseFuncfile := fun wd =>
    .ok (wd ++ "/func.yaml",
      { Name := "hello", Memory := 128, Timeout := none, Format := "", Type_ := "",
        Expects := [] })
  baseOfDir := fun _ => "work"
  buildfunc := fun _ ff _ => .ok ff

/-- A declaration with memory 128 and no format, timeout or expectations. -/
def sampleFunc : funcfile :=
  { Name := "hello", Memory := 128, Timeout := none, Format := "", Type_ := "", Expects := [] }

/-- A declaration that expects an optional entry `A` and a required entry `B`. -/
def expectingFunc : funcfile :=
  { sampleFunc with Expects := [{ Name := "A", Required := false },
                                { Name := "B", Required := true }] }

/-- The sample world with `expectingFunc` as the parsed declaration. -/
def expectingWorld : World String (List String) :=
  { sampleWorld with findAndParseFuncfile := fun wd => .ok (wd ++ "/func.yaml", expectingFunc) }

/-- A command line with no flags and no arguments. -/
def emptyContext : Context :=
  { firstArg := "", env := [], link := [], method := "", format := "", runs := 0,
    memory := 0, noCache := false }

/-! ## Auxiliary facts -/

theorem foldl_append_pairs (f : String → List String) (xs : List String) (init : List String) :
    xs.foldl (fun sh x => sh ++ f x) init = init ++ xs.flatMap f := by
  induction xs generalizing init with
  | nil => simp
  | cons x xs ih => simp [List.foldl_cons, ih, List.flatMap_cons, List.append_assoc]

theorem dockerArgs_eq {R Req : Type} (w : World R Req) (ff : funcfile)
    (links runEnv : List String) :
    dockerArgs w ff links runEnv =
      ["docker", "run", "--rm", "-i", "--memory=" ++ toString ff.Memory ++ "m"] ++
        links.flatMap (fun l => ["--link", l]) ++
        runEnv.flatMap (fun e => ["-e", e]) ++ [w.imageName ff] := by
  unfold dockerArgs
  simp only [foldl_append_pairs]

theorem runff_sh {R Req : Type} (w : World R Req) (ff : funcfile) (stdin : Option R)
    (method : String) (envVars links : List String) (format : String) (runs : Int)
    (r : Launch R) (h : runff w ff stdin method envVars links format runs = .ok r) :
    r.sh = dockerArgs w ff links r.runEnv := by
  unfold runff at h
  simp only at h
  split at h
  · split at h
    · exact absurd h (by simp)
    · split at h
      · exact absurd h (by simp)
      · cases h; rfl
  · split at h
    · split at h
      · exact absurd h (by simp)
      · cases h; rfl
    · cases h; rfl

/-- In the default branch `runff` always reaches the launch; its parts. -/
theorem runff_default {R Req : Type} (w : World R Req) (ff : funcfile) (stdin : Option R)
    (method : String) (envVars links : List String) (format : String) (runs : Int)
    (hhttp : resolveFormat format ff ≠ "http") (hjson : resolveFormat format ff ≠ "json") :
    runff w ff stdin method envVars links format runs =
      .ok { sh := dockerArgs w ff links
              ([kvEq "FN_TYPE" "sync", kvEq "FN_FORMAT" (resolveFormat format ff),
                kvEq "FN_PATH" "/hello", kvEq "FN_MEMORY" (toString ff.Memory),
                kvEq "FN_APP_NAME" "myapp"] ++ envVars ++
               [kvEq "FN_REQUEST_URL" LocalTestURL,
                kvEq "FN_CALL_ID" "12345678901234567890123456",
                kvEq "FN_METHOD" (effectiveMethod method stdin),
                kvEq "FN_DEADLINE" (deadlineString w ff)]),
            runEnv := [kvEq "FN_TYPE" "sync", kvEq "FN_FORMAT" (resolveFormat format ff),
                kvEq "FN_PATH" "/hello", kvEq "FN_MEMORY" (toString ff.Memory),
                kvEq "FN_APP_NAME" "myapp"] ++ envVars ++
               [kvEq "FN_REQUEST_URL" LocalTestURL,
                kvEq "FN_CALL_ID" "12345678901234567890123456",
                kvEq "FN_METHOD" (effectiveMethod method stdin),
                kvEq "FN_DEADLINE" (deadlineString w ff)],
            stdin := .passthrough stdin, stdoutJSON := false } := by
  unfold runff
  simp [HttpFormat, JSONFormat, hhttp, hjson]

theorem foldl_append_eq_join (l : List String) (b : String) :
    l.foldl (fun r s => r ++ s) b = b ++ String.join l := by
  induction l generalizing b with
  | nil => simp [String.join]
  | cons x xs ih =>
    have h1 : String.join (x :: xs) = x ++ String.join xs := by
      unfold String.join
      rw [List.foldl_cons, ih, String.empty_append]
      rw [ih ""]
      simp
    rw [List.foldl_cons, ih, h1, String.append_assoc]

theorem join_cons (x : String) (xs : List String) :
    String.join (x :: xs) = x ++ String.join xs := by
  unfold String.join
  rw [List.foldl_cons, foldl_append_eq_join, String.empty_append]
  rfl

/-- The HTTP loop, when `http.NewRequest` accepts the method: `k` copies of the bytes
that `req.Write` appends for the request with its five headers set. -/
theorem httpLoop_ok {R Req : Type} (w : World R Req)
    (method input callID contentType deadlineS : String) (req : Req)
    (hreq : w.newRequest method LocalTestURL input = .ok req) (k : Nat) (b : String) :
    httpLoop w method input callID contentType deadlineS k b =
      .ok (b ++ String.join (List.replicate k
        (w.write (w.headerSet (w.headerSet (w.headerSet (w.headerSet (w.headerSet req
          "Content-Type" contentType) "FN_REQUEST_URL" LocalTestURL) "FN_CALL_ID" callID)
          "FN_METHOD" method) "FN_DEADLINE" deadlineS)).1)) := by
  induction k generalizing b with
  | zero => simp [httpLoop, String.join]
  | succ k ih =>
    simp only [httpLoop, hreq, ih, List.replicate_succ, join_cons, String.append_assoc]

/-- The HTTP loop fails at its first iteration when `http.NewRequest` rejects. -/
theorem httpLoop_error {R Req : Type} (w : World R Req)
    (method input callID contentType deadlineS err : String)
    (hreq : w.newRequest method LocalTestURL input = .error err) (k : Nat) (b : String) :
    httpLoop w method input callID contentType deadlineS (k + 1) b =
      .error (.error ("error creating http request: " ++ err)) := by
  simp only [httpLoop, hreq]

theorem jsonLoop_ok {R Req : Type} (w : World R Req)
    (method callID contentType deadlineS : String) (records : List String) (stdin : Option R)
    (h : jsonCalls w method callID contentType deadlineS stdin records) (b : String) :
    jsonLoop w method callID contentType deadlineS records.length b stdin =
      .ok (b ++ String.join (records.map (fun record => record ++ "\n"))) := by
  induction records generalizing stdin b with
  | nil => simp [jsonLoop, String.join]
  | cons record records ih =>
    obtain ⟨stdin', hcall, hrest⟩ := h
    simp only [List.length_cons, jsonLoop, hcall, ih stdin' hrest, List.map_cons, join_cons,
      String.append_assoc]

/-- In the HTTP branch, with readable input and an accepted method, `runff` reaches
the launch; its parts. -/
theorem runff_http {R Req : Type} (w : World R Req) (ff : funcfile) (stdin : Option R)
    (method : String) (envVars links : List String) (format : String) (runs : Int)
    (input : String) (req : Req)
    (hfmt : resolveFormat format ff = "http")
    (hin : readInput w stdin = .ok input)
    (hreq : w.newRequest (effectiveMethod method stdin) LocalTestURL input = .ok req) :
    runff w ff stdin method envVars links format runs =
      .ok { sh := dockerArgs w ff links
              ([kvEq "FN_TYPE" "sync", kvEq "FN_FORMAT" (resolveFormat format ff),
                kvEq "FN_PATH" "/hello", kvEq "FN_MEMORY" (toString ff.Memory),
                kvEq "FN_APP_NAME" "myapp"] ++ envVars),
            runEnv := [kvEq "FN_TYPE" "sync", kvEq "FN_FORMAT" (resolveFormat format ff),
                kvEq "FN_PATH" "/hello", kvEq "FN_MEMORY" (toString ff.Memory),
                kvEq "FN_APP_NAME" "myapp"] ++ envVars,
            stdin := .bytes (String.join (List.replicate (normalizeRuns runs).toNat
              (w.write (w.headerSet (w.headerSet (w.headerSet (w.headerSet (w.headerSet req
                "Content-Type" "application/json") "FN_REQUEST_URL" LocalTestURL)
                "FN_CALL_ID" "12345678901234567890123456")
                "FN_METHOD" (effectiveMethod method stdin))
                "FN_DEADLINE" (deadlineString w ff))).1)),
            stdoutJSON := false } := by
  unfold runff
  simp [HttpFormat, hfmt, hin, httpLoop_ok w _ _ _ _ _ req hreq]

/-- In the JSON branch, when the calls of `createJSONInput` succeed, `runff` reaches
the launch; its parts. -/
theorem runff_json {R Req : Type} (w : World R Req) (ff : funcfile) (stdin : Option R)
    (method : String) (envVars links : List String) (format : String) (runs : Int)
    (records : List String)
    (hfmt : resolveFormat format ff = "json")
    (hcalls : jsonCalls w (effectiveMethod method stdin) "12345678901234567890123456"
      "application/json" (deadlineString w ff) stdin records)
    (hlen : records.length = (normalizeRuns runs).toNat) :
    runff w ff stdin method envVars links format runs =
      .ok { sh := dockerArgs w ff links
              ([kvEq "FN_TYPE" "sync", kvEq "FN_FORMAT" (resolveFormat format ff),
                kvEq "FN_PATH" "/hello", kvEq "FN_MEMORY" (toString ff.Memory),
                kvEq "FN_APP_NAME" "myapp"] ++ envVars),
            runEnv := [kvEq "FN_TYPE" "sync", kvEq "FN_FORMAT" (resolveFormat format ff),
                kvEq "FN_PATH" "/hello", kvEq "FN_MEMORY" (toString ff.Memory),
                kvEq "FN_APP_NAME" "myapp"] ++ envVars,
            stdin := .bytes (String.join (records.map (fun record => record ++ "\n"))),
            stdoutJSON := true } := by
  unfold runff
  have hne : ¬ ("json" = HttpFormat) := by decide
  simp [JSONFormat, hfmt, hne, ← hlen, jsonLoop_ok w _ _ _ _ records stdin hcalls]

theorem normalizeRuns_pos (runs : Int) (h : 1 ≤ runs) : normalizeRuns runs = runs := by
  unfold normalizeRuns
  split
  · omega
  · rfl

theorem normalizeRuns_nonpos (runs : Int) (h : runs ≤ 0) : normalizeRuns runs = 1 := by
  unfold normalizeRuns
  simp [h]

/-- Whenever `runff` reaches the launch, its environment list starts with the five
entries of lines 184-188. -/
theorem runff_runEnv_prefix {R Req : Type} (w : World R Req) (ff : funcfile)
    (stdin : Option R) (method : String) (envVars links : List String) (format : String)
    (runs : Int) (r : Launch R)
    (h : runff w ff stdin method envVars links format runs = .ok r) :
    ∃ rest : List String,
      r.runEnv = [kvEq "FN_TYPE" "sync", kvEq "FN_FORMAT" (resolveFormat format ff),
        kvEq "FN_PATH" "/hello", kvEq "FN_MEMORY" (toString ff.Memory),
        kvEq "FN_APP_NAME" "myapp"] ++ rest := by
  unfold runff at h
  simp only at h
  split at h
  · split at h
    · exact absurd h (by simp)
    · split at h
      · exact absurd h (by simp)
      · cases h; exact ⟨envVars, by simp⟩
  · split at h
    · split at h
      · exact absurd h (by simp)
      · cases h; exact ⟨envVars, by simp⟩
    · cases h
      exact ⟨envVars ++ [kvEq "FN_REQUEST_URL" LocalTestURL,
        kvEq "FN_CALL_ID" "12345678901234567890123456",
        kvEq "FN_METHOD" (effectiveMethod method stdin),
        kvEq "FN_DEADLINE" (deadlineString w ff)], by simp⟩

theorem applyMemory_Memory (ff : funcfile) (memory : Nat) :
    (applyMemory ff memory).Memory = if memory ≠ 0 then memory else ff.Memory := by
  unfold applyMemory
  split <;> rfl

/-! ## Properties -/

/-- C1: for every declaration, every list of links and every container environment
list, the command line is `docker run --rm -i --memory=<Memory>m`, then a
`--link l` pair per link in order, then a `-e entry` pair per environment entry in
order, then the image reference and nothing after it; and whenever `runff` reaches
the launch, its command line is that list for the environment list it built. -/
theorem runff_command_line {R Req : Type} (w : World R Req) (ff : funcfile)
    (links : List String) :
    (∀ runEnv : List String,
      dockerArgs w ff links runEnv =
        ["docker", "run", "--rm", "-i", "--memory=" ++ toString ff.Memory ++ "m"] ++
          links.flatMap (fun l => ["--link", l]) ++
          runEnv.flatMap (fun e => ["-e", e]) ++ [w.imageName ff]) ∧
    (∀ (stdin : Option R) (method : String) (envVars : List String) (format : String)
        (runs : Int) (r : Launch R),
      runff w ff stdin method envVars links format runs = .ok r →
      r.sh =
        ["docker", "run", "--rm", "-i", "--memory=" ++ toString ff.Memory ++ "m"] ++
          links.flatMap (fun l => ["--link", l]) ++
          r.runEnv.flatMap (fun e => ["-e", e]) ++ [w.imageName ff]) := by
  refine ⟨fun runEnv => dockerArgs_eq w ff links runEnv, ?_⟩
  intro stdin method envVars format runs r h
  rw [runff_sh w ff stdin method envVars links format runs r h, dockerArgs_eq]

/-- Witness of C1: default format, one link `db`, one caller entry `K=v`. -/
theorem runff_command_line_witness :
    ∃ r : Launch String,
      runff sampleWorld sampleFunc none "" ["K=v"] ["db"] "" 1 = .ok r ∧
      r.sh = ["docker", "run", "--rm", "-i", "--memory=128m", "--link", "db",
        "-e", "FN_TYPE=sync", "-e", "FN_FORMAT=default", "-e", "FN_PATH=/hello",
        "-e", "FN_MEMORY=128", "-e", "FN_APP_NAME=myapp", "-e", "K=v",
        "-e", "FN_REQUEST_URL=http://localhost:8080/myapp/hello",
        "-e", "FN_CALL_ID=12345678901234567890123456", "-e", "FN_METHOD=GET",
        "-e", "FN_DEADLINE=2018-01-01T00:00:30Z", "hello:0.0.1"] :=
  ⟨_, rfl, (runff_command_line sampleWorld sampleFunc ["db"]).2 none "" ["K=v"] "" 1 _ rfl⟩

/-- C2: when the resolved format is neither `http` nor `json`, `runff` reaches the
launch and the container environment list is the five fixed entries `FN_TYPE=sync`,
`FN_FORMAT=<format>`, `FN_PATH=/hello`, `FN_MEMORY=<mb>`, `FN_APP_NAME=myapp`, then
the caller's entries unchanged and in order, then the four fixed entries
`FN_REQUEST_URL`, `FN_CALL_ID`, `FN_METHOD`, `FN_DEADLINE`. -/
theorem default_format_runEnv {R Req : Type} (w : World R Req) (ff : funcfile)
    (stdin : Option R) (method : String) (envVars links : List String) (format : String)
    (runs : Int)
    (hhttp : resolveFormat format ff ≠ "http") (hjson : resolveFormat format ff ≠ "json") :
    ∃ r : Launch R,
      runff w ff stdin method envVars links format runs = .ok r ∧
      r.runEnv =
        ["FN_TYPE=sync", "FN_FORMAT=" ++ resolveFormat format ff, "FN_PATH=/hello",
          "FN_MEMORY=" ++ toString ff.Memory, "FN_APP_NAME=myapp"] ++ envVars ++
        ["FN_REQUEST_URL=http://localhost:8080/myapp/hello",
          "FN_CALL_ID=12345678901234567890123456",
          "FN_METHOD=" ++ effectiveMethod method stdin,
          "FN_DEADLINE=" ++ deadlineString w ff] := by
  refine ⟨_, runff_default w ff stdin method envVars links format runs hhttp hjson, ?_⟩
  simp [kvEq, LocalTestURL]

/-- Witness of C2: format `default`, caller entries `FN_PATH=/other` and `K=v`. -/
theorem default_format_runEnv_witness :
    resolveFormat "" sampleFunc ≠ "http" ∧ resolveFormat "" sampleFunc ≠ "json" ∧
    ∃ r : Launch String,
      runff sampleWorld sampleFunc none "PUT" ["FN_PATH=/other", "K=v"] [] "" 3 = .ok r ∧
      r.runEnv =
        ["FN_TYPE=sync", "FN_FORMAT=default", "FN_PATH=/hello", "FN_MEMORY=128",
          "FN_APP_NAME=myapp", "FN_PATH=/other", "K=v",
          "FN_REQUEST_URL=http://localhost:8080/myapp/hello",
          "FN_CALL_ID=12345678901234567890123456", "FN_METHOD=PUT",
          "FN_DEADLINE=2018-01-01T00:00:30Z"] :=
  ⟨by decide, by decide,
    default_format_runEnv sampleWorld sampleFunc none "PUT" ["FN_PATH=/other", "K=v"] [] "" 3
      (by decide) (by decide)⟩

/-- C3: for `runs ≥ 1`, a method that `http.NewRequest` accepts and any input, in
HTTP format `runff` reaches the launch and the stdin of the container is the
concatenation of exactly `runs` frames, each of them the bytes that `req.Write`
produces for one and the same request: the effective method, the fixed local URL,
the input as body, and the headers `Content-Type: application/json`,
`FN_REQUEST_URL`, `FN_CALL_ID`, `FN_METHOD`, `FN_DEADLINE`. -/
theorem http_stdin_frames {R Req : Type} (w : World R Req) (ff : funcfile)
    (stdin : Option R) (method : String) (envVars links : List String) (format : String)
    (runs : Int) (input : String) (req : Req)
    (hruns : 1 ≤ runs)
    (hfmt : resolveFormat format ff = "http")
    (hin : readInput w stdin = .ok input)
    (hreq : w.newRequest (effectiveMethod method stdin) LocalTestURL input = .ok req) :
    ∃ (r : Launch R) (frames : List String),
      runff w ff stdin method envVars links format runs = .ok r ∧
      r.stdin = .bytes (String.join frames) ∧
      (frames.length : Int) = runs ∧
      ∀ frame ∈ frames, frame =
        (w.write (w.headerSet (w.headerSet (w.headerSet (w.headerSet (w.headerSet req
          "Content-Type" "application/json")
          "FN_REQUEST_URL" "http://localhost:8080/myapp/hello")
          "FN_CALL_ID" "12345678901234567890123456")
          "FN_METHOD" (effectiveMethod method stdin))
          "FN_DEADLINE" (deadlineString w ff))).1 := by
  refine ⟨_, _, runff_http w ff stdin method envVars links format runs input req hfmt hin hreq,
    rfl, ?_, ?_⟩
  · rw [List.length_replicate, normalizeRuns_pos runs hruns]
    omega
  · intro frame hmem
    exact List.eq_of_mem_replicate hmem

/-- Witness of C3: method `PUT`, input `hi`, two runs. -/
theorem http_stdin_frames_witness :
    (1 : Int) ≤ 2 ∧ resolveFormat "http" sampleFunc = "http" ∧
    readInput sampleWorld (some "hi") = .ok "hi" ∧
    sampleWorld.newRequest (effectiveMethod "PUT" (some "hi")) LocalTestURL "hi" =
      .ok ["PUT http://localhost:8080/myapp/hello", "hi"] ∧
    ∃ (r : Launch String) (frames : List String),
      runff sampleWorld sampleFunc (some "hi") "PUT" [] [] "http" 2 = .ok r ∧
      r.stdin = .bytes (String.join frames) ∧
      (frames.length : Int) = 2 ∧
      ∀ frame ∈ frames, frame =
        "PUT http://localhost:8080/myapp/hello\r\nhi\r\nContent-Type: application/json\r\n" ++
        "FN_REQUEST_URL: http://localhost:8080/myapp/hello\r\n" ++
        "FN_CALL_ID: 12345678901234567890123456\r\nFN_METHOD: PUT\r\n" ++
        "FN_DEADLINE: 2018-01-01T00:00:30Z\r\n" :=
  ⟨by decide, by decide, rfl, rfl,
    http_stdin_frames sampleWorld sampleFunc (some "hi") "PUT" [] [] "http" 2 "hi"
      ["PUT http://localhost:8080/myapp/hello", "hi"] (by decide) (by decide) rfl rfl⟩

/-- C4: for `runs ≥ 1` in `json` format, when the `runs` calls of `createJSONInput` (all
with the same call id and the same deadline string) succeed and return `records`,
`runff` reaches the launch and the stdin of the container is the concatenation of
the `runs` records, each followed by one newline. -/
theorem json_stdin_records {R Req : Type} (w : World R Req) (ff : funcfile)
    (stdin : Option R) (method : String) (envVars links : List String) (format : String)
    (runs : Int) (records : List String)
    (hruns : 1 ≤ runs)
    (hfmt : resolveFormat format ff = "json")
    (hcalls : jsonCalls w (effectiveMethod method stdin) "12345678901234567890123456"
      "application/json" (deadlineString w ff) stdin records)
    (hlen : (records.length : Int) = runs) :
    ∃ r : Launch R,
      runff w ff stdin method envVars links format runs = .ok r ∧
      r.stdin = .bytes (String.join (records.map (fun record => record ++ "\n"))) := by
  refine ⟨_, runff_json w ff stdin method envVars links format runs records hfmt hcalls ?_, rfl⟩
  rw [normalizeRuns_pos runs hruns]
  omega

/-- Witness of C4: two runs over the stream `hi`, which the first call drains. -/
theorem json_stdin_records_witness :
    (1 : Int) ≤ 2 ∧ resolveFormat "json" sampleFunc = "json" ∧
    jsonCalls sampleWorld (effectiveMethod "" (some "hi")) "12345678901234567890123456"
      "application/json" (deadlineString sampleWorld sampleFunc) (some "hi")
      ["12345678901234567890123456|2018-01-01T00:00:30Z|hi",
        "12345678901234567890123456|2018-01-01T00:00:30Z|"] ∧
    ∃ r : Launch String,
      runff sampleWorld sampleFunc (some "hi") "" [] [] "json" 2 = .ok r ∧
      r.stdin = .bytes ("12345678901234567890123456|2018-01-01T00:00:30Z|hi\n" ++
        "12345678901234567890123456|2018-01-01T00:00:30Z|\n") :=
  ⟨by decide, by decide, ⟨some "", rfl, some "", rfl, trivial⟩,
    json_stdin_records sampleWorld sampleFunc (some "hi") "" [] [] "json" 2
      ["12345678901234567890123456|2018-01-01T00:00:30Z|hi",
        "12345678901234567890123456|2018-01-01T00:00:30Z|"]
      (by decide) (by decide) ⟨some "", rfl, some "", rfl, trivial⟩ rfl⟩

/-- C5: the effective method `m` of `runff` is the method argument when that is
non-empty, `GET` when it is empty and no input stream is supplied, `POST` when it is
empty and a stream is supplied; in default format `FN_METHOD=m` is the entry of the
container environment just before `FN_DEADLINE`, after every caller entry; in HTTP
format `m` is the method of the request and the value of its `FN_METHOD` header. -/
theorem effective_method_emitted {R Req : Type} (w : World R Req) (ff : funcfile)
    (stdin : Option R) (method : String) (envVars links : List String) (format : String)
    (runs : Int) :
    ∃ m : String,
      (method ≠ "" → m = method) ∧
      (method = "" → stdin = none → m = "GET") ∧
      (method = "" → stdin ≠ none → m = "POST") ∧
      (resolveFormat format ff ≠ "http" → resolveFormat format ff ≠ "json" →
        ∃ (r : Launch R) (before : List String),
          runff w ff stdin method envVars links format runs = .ok r ∧
          r.runEnv = before ++ ["FN_METHOD=" ++ m, "FN_DEADLINE=" ++ deadlineString w ff]) ∧
      (resolveFormat format ff = "http" →
        ∀ (input : String) (req : Req),
          readInput w stdin = .ok input →
          w.newRequest m LocalTestURL input = .ok req →
          ∃ r : Launch R,
            runff w ff stdin method envVars links format runs = .ok r ∧
            r.stdin = .bytes (String.join (List.replicate (normalizeRuns runs).toNat
              (w.write (w.headerSet (w.headerSet (w.headerSet (w.headerSet (w.headerSet req
                "Content-Type" "application/json") "FN_REQUEST_URL" LocalTestURL)
                "FN_CALL_ID" "12345678901234567890123456")
                "FN_METHOD" m) "FN_DEADLINE" (deadlineString w ff))).1))) := by
  refine ⟨effectiveMethod method stdin, ?_, ?_, ?_, ?_, ?_⟩
  · intro h
    simp [effectiveMethod, h]
  · intro h hs
    simp [effectiveMethod, h, hs]
  · intro h hs
    cases stdin with
    | none => exact absurd rfl hs
    | some rd => simp [effectiveMethod, h]
  · intro hhttp hjson
    refine ⟨_, [kvEq "FN_TYPE" "sync", kvEq "FN_FORMAT" (resolveFormat format ff),
        kvEq "FN_PATH" "/hello", kvEq "FN_MEMORY" (toString ff.Memory),
        kvEq "FN_APP_NAME" "myapp"] ++ envVars ++
        [kvEq "FN_REQUEST_URL" LocalTestURL, kvEq "FN_CALL_ID" "12345678901234567890123456"],
      runff_default w ff stdin method envVars links format runs hhttp hjson, ?_⟩
    simp [kvEq]
  · intro hfmt input req hin hreq
    exact ⟨_, runff_http w ff stdin method envVars links format runs input req hfmt hin hreq,
      rfl⟩

/-- Witness of C5: no method and no stream in default format gives `FN_METHOD=GET`. -/
theorem effective_method_emitted_witness :
    ∃ (r : Launch String) (before : List String),
      runff sampleWorld sampleFunc none "" ["K=v"] [] "" 1 = .ok r ∧
      r.runEnv = before ++ ["FN_METHOD=GET", "FN_DEADLINE=2018-01-01T00:00:30Z"] := by
  obtain ⟨m, _, hget, _, hdefault, _⟩ :=
    effective_method_emitted sampleWorld sampleFunc none "" ["K=v"] [] "" 1
  obtain ⟨r, before, hr, henv⟩ := hdefault (by decide) (by decide)
  rw [hget rfl rfl] at henv
  exact ⟨r, before, hr, henv⟩

/-- C8: for `runs ≤ 0`, everything else fixed, `runff` yields what it yields for
`runs = 1`: the same command line and the same stdin bytes (or the same failure), in
every format. -/
theorem runs_nonpositive_as_one {R Req : Type} (w : World R Req) (ff : funcfile)
    (stdin : Option R) (method : String) (envVars links : List String) (format : String)
    (runs : Int) (hruns : runs ≤ 0) :
    runff w ff stdin method envVars links format runs =
      runff w ff stdin method envVars links format 1 := by
  unfold runff
  rw [normalizeRuns_nonpos runs hruns, normalizeRuns_pos 1 (le_refl 1)]

/-- Witness of C8: `runs = -3` in HTTP format writes the single frame of `runs = 1`. -/
theorem runs_nonpositive_as_one_witness :
    (-3 : Int) ≤ 0 ∧
    runff sampleWorld sampleFunc (some "hi") "" ["K=v"] ["db"] "http" (-3) =
      runff sampleWorld sampleFunc (some "hi") "" ["K=v"] ["db"] "http" 1 :=
  ⟨by decide,
    runs_nonpositive_as_one sampleWorld sampleFunc (some "hi") "" ["K=v"] ["db"] "http" (-3)
      (by decide)⟩

/-- C9: when `preRun` returns a declaration with memory `d` and the `--memory` flag is
`o`, a launch reached by `runCmd.run` has `--memory=<o>m` as fifth argument and
`FN_MEMORY=<o>` as fourth environment entry when `o` is non-zero, and
`--memory=<d>m` and `FN_MEMORY=<d>` when `o` is zero. -/
theorem memory_override {R Req : Type} (w : World R Req) (c : Context) (ev : List Event)
    (fpath : String) (ff : funcfile) (envVars : List String) (r : Launch R)
    (hpre : preRun w c = (ev, .ok (fpath, ff, envVars)))
    (hrun : (runCmd.run w c).2 = .ok r) :
    (runCmd.run w c).1 = ev ++ [Event.launch r.sh] ∧
    r.sh.take 5 = ["docker", "run", "--rm", "-i",
      "--memory=" ++ toString (if c.memory ≠ 0 then c.memory else ff.Memory) ++ "m"] ∧
    r.runEnv[3]? =
      some ("FN_MEMORY=" ++ toString (if c.memory ≠ 0 then c.memory else ff.Memory)) := by
  unfold runCmd.run at hrun ⊢
  rw [hpre] at hrun ⊢
  simp only at hrun ⊢
  split at hrun
  · exact absurd hrun (by simp)
  · rename_i l hl
    simp only at hrun
    cases hrun
    refine ⟨rfl, ?_, ?_⟩
    · rw [runff_sh _ _ _ _ _ _ _ _ _ hl, dockerArgs_eq, applyMemory_Memory]
      simp
    · obtain ⟨rest, hrest⟩ := runff_runEnv_prefix _ _ _ _ _ _ _ _ _ hl
      rw [hrest, applyMemory_Memory]
      simp [kvEq]

/-- Witness of C9: declared memory 128 and `--memory 256` give `--memory=256m`. -/
theorem memory_override_witness :
    ∃ r : Launch String,
      preRun sampleWorld { emptyContext with memory := 256 } =
        ([Event.build "/work/func.yaml"], .ok ("/work/func.yaml", sampleFunc, [])) ∧
      (runCmd.run sampleWorld { emptyContext with memory := 256 }).2 = .ok r ∧
      (runCmd.run sampleWorld { emptyContext with memory := 256 }).1 =
        [Event.build "/work/func.yaml"] ++ [Event.launch r.sh] ∧
      r.sh.take 5 = ["docker", "run", "--rm", "-i", "--memory=256m"] ∧
      r.runEnv[3]? = some "FN_MEMORY=256" :=
  ⟨_, rfl, rfl,
    memory_override sampleWorld { emptyContext with memory := 256 }
      [Event.build "/work/func.yaml"] "/work/func.yaml" sampleFunc [] _ rfl rfl⟩

/-- C10, at a caller entry without `=`: for the name `A` and the caller list `["A"]`,
`getEnvValue` finds `split[0] == n` and indexes `split[1]` in a slice of length one:
it panics instead of returning a string. -/
theorem getEnvValue_panics_without_equals :
    getEnvValue "A" ["A"] = .error (.panic "index out of range [1]") := rfl

/-- C6, at the declaration expecting optional `A` and required `B`, caller list `["A"]`
and an empty process environment: `B` is required, given by no caller entry and not
set in the environment, yet `preRun` does not return an error naming `B`; it panics in
`getEnvValue` while looking up `A`. -/
theorem preRun_panics_before_required_check :
    preRun expectingWorld { emptyContext with env := ["A"] } =
      ([], .error (.panic "index out of range [1]")) := rfl

/-! ## The expected-configuration check on caller lists whose entries all contain `=`

Away from the entries without `=`, `getEnvValue` returns and the required-entry check
of `preRun` behaves as specified. -/

theorem splitOnChar_ne_nil (c : Char) (l : List Char) : splitOnChar c l ≠ [] := by
  cases l with
  | nil => simp [splitOnChar]
  | cons x xs =>
    unfold splitOnChar
    split
    · simp
    · split <;> simp

theorem splitOnChar_length_of_mem (c : Char) (l : List Char) (h : c ∈ l) :
    2 ≤ (splitOnChar c l).length := by
  induction l with
  | nil => simp at h
  | cons x xs ih =>
    unfold splitOnChar
    split
    · rename_i heq
      exact absurd heq (splitOnChar_ne_nil c xs)
    · rename_i hd tl heq
      by_cases hx : x = c
      · simp [hx]
      · have hmem : c ∈ xs := by
          rcases List.mem_cons.mp h with h | h
          · exact absurd h.symm hx
          · exact h
        have := ih hmem
        rw [heq] at this
        simpa [hx] using this

theorem splitOnChar_append_sep (c : Char) (a b : List Char) (h : c ∉ a) :
    splitOnChar c (a ++ c :: b) = a :: splitOnChar c b := by
  induction a with
  | nil =>
    simp only [List.nil_append]
    rw [splitOnChar]
    split
    · rename_i heq
      exact absurd heq (splitOnChar_ne_nil c b)
    · rename_i hd tl heq
      simp [heq]
  | cons x xs ih =>
    have hx : x ≠ c := fun hxc => h (by simp [hxc])
    have hxs : c ∉ xs := fun hm => h (List.mem_cons_of_mem _ hm)
    simp only [List.cons_append]
    rw [splitOnChar, ih hxs]
    simp [hx]

theorem strings_Split_kvEq_head (n v : String) (h : '=' ∉ n.data) :
    (strings_Split (kvEq n v) '=')[0]? = some n := by
  unfold strings_Split kvEq
  have hdata : (n ++ "=" ++ v).data = n.data ++ '=' :: v.data := by
    simp [String.data_append]
  rw [hdata, splitOnChar_append_sep '=' n.data v.data h]
  simp

theorem kvEq_has_equals (n v : String) : '=' ∈ (kvEq n v).data := by
  unfold kvEq
  simp [String.data_append]

/-- On a caller list in which every entry contains `=`, `getEnvValue` returns. -/
theorem getEnvValue_ok_of_equals (n : String) (envVars : List String)
    (hwf : ∀ e ∈ envVars, '=' ∈ e.data) : ∃ v, getEnvValue n envVars = .ok v := by
  induction envVars with
  | nil => exact ⟨"", rfl⟩
  | cons e rest ih =>
    have hlen := splitOnChar_length_of_mem '=' e.data (hwf e (List.mem_cons_self _ _))
    have hrest := ih (fun e' he' => hwf e' (List.mem_cons_of_mem _ he'))
    unfold getEnvValue
    simp only [strings_Split]
    match hsplit : splitOnChar '=' e.data, hlen with
    | a :: b :: t, _ =>
      simp only [List.map_cons, List.getElem?_cons_zero, List.getElem?_cons_succ]
      split
      · exact ⟨_, rfl⟩
      · exact hrest

/-- When no entry has the name `n` before its first `=`, `getEnvValue` returns `""`. -/
theorem getEnvValue_absent (n : String) (envVars : List String)
    (habs : ∀ e ∈ envVars, (strings_Split e '=')[0]? ≠ some n) :
    getEnvValue n envVars = .ok "" := by
  induction envVars with
  | nil => rfl
  | cons e rest ih =>
    have hrest := ih (fun e' he' => habs e' (List.mem_cons_of_mem _ he'))
    have he := habs e (List.mem_cons_self _ _)
    unfold getEnvValue
    simp only
    split
    · rename_i hnone
      simp only [strings_Split] at hnone
      have := splitOnChar_ne_nil '=' e.data
      cases hs : splitOnChar '=' e.data with
      | nil => exact absurd hs this
      | cons a t => rw [hs] at hnone; simp at hnone
    · rename_i s0 hs0
      have hne : s0 ≠ n := fun h => he (by rw [hs0, h])
      simp only [hne, if_false]
      exact hrest


/-- The loop over the expected entries on a caller list in which every entry contains
`=`, in a process environment that has no variable with `=` in its name: if a
required entry `x` is named by no caller entry and is not set in the environment, the
loop returns the error naming the first required entry it finds missing, having
written only to stderr. -/
theorem checkExpected_required_missing (getenv : String → String)
    (hgetenv : ∀ n : String, '=' ∈ n.data → getenv n = "")
    (expects : List Expect) (envVars : List String) (x : Expect)
    (hwf : ∀ e ∈ envVars, '=' ∈ e.data)
    (hx : x ∈ expects) (hreq : x.Required = true)
    (habs : ∀ e ∈ envVars, (strings_Split e '=')[0]? ≠ some x.Name)
    (henv : getenv x.Name = "") :
    ∃ y ∈ expects, y.Required = true ∧ getenv y.Name = "" ∧
      ∃ ev : List Event,
        checkExpected getenv expects envVars =
          (ev, .error (.error ("required env var " ++ y.Name ++
            " not found, please set either set it in your environment or pass in `-e " ++
            y.Name ++ "=X` flag."))) ∧
        ∀ e ∈ ev, ∃ msg, e = Event.stderr msg := by
  induction expects generalizing envVars with
  | nil => simp at hx
  | cons h rest ih =>
    obtain ⟨v, hv⟩ := getEnvValue_ok_of_equals h.Name envVars hwf
    unfold checkExpected
    simp only [hv]
    by_cases hvne : v ≠ ""
    · -- found among the caller entries: `h` is not `x`
      have hxrest : x ∈ rest := by
        rcases List.mem_cons.mp hx with hxh | hxr
        · subst hxh
          rw [getEnvValue_absent _ envVars habs] at hv
          cases hv
          exact absurd rfl hvne
        · exact hxr
      obtain ⟨y, hy, hyreq, hyenv, ev, hev, hevs⟩ := ih envVars hwf hxrest habs
      exact ⟨y, List.mem_cons_of_mem _ hy, hyreq, hyenv, ev, by simp [hvne, hev], hevs⟩
    · simp only [hvne, if_false]
      by_cases hge : getenv h.Name ≠ ""
      · -- taken from the process environment and appended
        have hxrest : x ∈ rest := by
          rcases List.mem_cons.mp hx with hxh | hxr
          · subst hxh
            exact absurd henv hge
          · exact hxr
        have hname : '=' ∉ h.Name.data := fun hm => hge (hgetenv _ hm)
        have hwf' : ∀ e ∈ envVars ++ [kvEq h.Name (getenv h.Name)], '=' ∈ e.data := by
          intro e he
          rcases List.mem_append.mp he with he | he
          · exact hwf e he
          · rw [List.mem_singleton.mp he]
            exact kvEq_has_equals _ _
        have habs' : ∀ e ∈ envVars ++ [kvEq h.Name (getenv h.Name)],
            (strings_Split e '=')[0]? ≠ some x.Name := by
          intro e he
          rcases List.mem_append.mp he with he | he
          · exact habs e he
          · rw [List.mem_singleton.mp he, strings_Split_kvEq_head _ _ hname]
            intro heq
            have : h.Name = x.Name := Option.some.inj heq
            rw [this] at hge
            exact hge henv
        obtain ⟨y, hy, hyreq, hyenv, ev, hev, hevs⟩ := ih _ hwf' hxrest habs'
        exact ⟨y, List.mem_cons_of_mem _ hy, hyreq, hyenv, ev, by simp [hge, hev], hevs⟩
      · simp only [hge, if_false]
        have hge' : getenv h.Name = "" := not_not.mp hge
        by_cases hr : h.Required = true
        · exact ⟨h, List.mem_cons_self _ _, hr, hge', [], by simp [hr], by simp⟩
        · have hxrest : x ∈ rest := by
            rcases List.mem_cons.mp hx with hxh | hxr
            · subst hxh
              exact absurd hreq hr
            · exact hxr
          obtain ⟨y, hy, hyreq, hyenv, ev, hev, hevs⟩ := ih envVars hwf hxrest habs
          refine ⟨y, List.mem_cons_of_mem _ hy, hyreq, hyenv,
            Event.stderr ("info: optional env var " ++ h.Name ++ " not found.\n") :: ev,
            by simp [hr, hev], ?_⟩
          intro e he
          rcases List.mem_cons.mp he with he | he
          · exact ⟨_, he⟩
          · exact hevs e he

/-- The positive content of the required-entry check: with a declaration that parses,
a caller list in which every entry contains `=`, and no environment variable with `=`
in its name, a required entry named by no caller entry and not set in the environment
makes `preRun` and `runCmd.run` return the error naming the first such entry of the
loop, and no build and no launch happens. -/
theorem run_required_missing {R Req : Type} (w : World R Req) (c : Context)
    (fpath : String) (ff : funcfile) (x : Expect)
    (hgetenv : ∀ n : String, '=' ∈ n.data → w.getenv n = "")
    (hchdir : c.firstArg ≠ "" → w.chdir (w.joinPath w.getWd c.firstArg) = none)
    (hparse : w.findAndParseFuncfile
      (if c.firstArg ≠ "" then w.joinPath w.getWd c.firstArg else w.getWd) = .ok (fpath, ff))
    (hwf : ∀ e ∈ c.env, '=' ∈ e.data)
    (hx : x ∈ ff.Expects) (hreq : x.Required = true)
    (habs : ∀ e ∈ c.env, (strings_Split e '=')[0]? ≠ some x.Name)
    (henv : w.getenv x.Name = "") :
    ∃ y ∈ ff.Expects, y.Required = true ∧ w.getenv y.Name = "" ∧
      (preRun w c).2 = .error (.error ("required env var " ++ y.Name ++
        " not found, please set either set it in your environment or pass in `-e " ++
        y.Name ++ "=X` flag.")) ∧
      (runCmd.run w c).2 = .error (.error ("required env var " ++ y.Name ++
        " not found, please set either set it in your environment or pass in `-e " ++
        y.Name ++ "=X` flag.")) ∧
      ∀ e ∈ (runCmd.run w c).1, (∀ p, e ≠ Event.build p) ∧ (∀ sh, e ≠ Event.launch sh) := by
  obtain ⟨y, hy, hyreq, hyenv, ev, hev, hevs⟩ :=
    checkExpected_required_missing w.getenv hgetenv ff.Expects c.env x hwf hx hreq habs henv
  refine ⟨y, hy, hyreq, hyenv, ?_⟩
  generalize "required env var " ++ y.Name ++
    " not found, please set either set it in your environment or pass in `-e " ++
    y.Name ++ "=X` flag." = msg at hev ⊢
  have hnot : ∀ e ∈ ev, (∀ p, e ≠ Event.build p) ∧ (∀ sh, e ≠ Event.launch sh) := by
    intro e he
    obtain ⟨msg, hmsg⟩ := hevs e he
    subst hmsg
    exact ⟨fun p => by simp, fun sh => by simp⟩
  by_cases hpath : c.firstArg ≠ ""
  · have hin : preRunIn w c (w.joinPath w.getWd c.firstArg) = (ev, .error (.error msg)) := by
      unfold preRunIn
      rw [if_pos hpath] at hparse
      simp only [hparse, hev]
    have hpre : preRun w c =
        ([Event.stdout ("Running function at: /" ++ c.firstArg ++ "\n"),
          Event.chdir (w.joinPath w.getWd c.firstArg)] ++ ev ++ [Event.chdir w.getWd],
          .error (.error msg)) := by
      unfold preRun
      simp only [hchdir hpath, hin]
      rw [if_pos hpath]
    have hrun : runCmd.run w c =
        ([Event.stdout ("Running function at: /" ++ c.firstArg ++ "\n"),
          Event.chdir (w.joinPath w.getWd c.firstArg)] ++ ev ++ [Event.chdir w.getWd],
          .error (.error msg)) := by
      unfold runCmd.run
      simp only [hpre]
    rw [hpre, hrun]
    refine ⟨rfl, rfl, ?_⟩
    intro e he
    simp only [List.mem_append, List.mem_cons, List.mem_singleton, List.not_mem_nil,
      or_false] at he
    rcases he with (he | he) | he
    · rcases he with he | he <;> subst he <;> exact ⟨fun p => by simp, fun sh => by simp⟩
    · exact hnot e he
    · subst he
      exact ⟨fun p => by simp, fun sh => by simp⟩
  · have hin : preRunIn w c w.getWd = (ev, .error (.error msg)) := by
      unfold preRunIn
      rw [if_neg hpath] at hparse
      simp only [hparse, hev]
    have hpre : preRun w c = (ev, .error (.error msg)) := by
      unfold preRun
      simp only [hin]
      rw [if_neg hpath]
    have hrun : runCmd.run w c = (ev, .error (.error msg)) := by
      unfold runCmd.run
      simp only [hpre]
    rw [hpre, hrun]
    exact ⟨rfl, rfl, hnot⟩

end FnRun
